import Mathlib

/-!
# Verification of the YouTube downloader / splitter against its specification

Shallow embedding of the computational content of the repository
(youtube_downloader_test.py, youtube_downloader_video.py, and the two
unnamed variants).  Python float arithmetic is modelled exactly over `ℚ`;
the Python builtin round (banker's rounding, half to even) is modelled by
`pythonRound`; Python floor division `//` on integers is `Int.fdiv`;
Python integers are unbounded, so `ℤ`/`ℕ` are exact models.  External
collaborators (ffprobe, ffmpeg, yt_dlp, the HTTP socket) are modelled by
explicit parameters carrying their observable outcomes: an `Option` result
for each probe, a `produced` oracle telling whether the transcoder wrote
the intermediate file of a segment, and an optional chunk index at which
the client disconnects during streaming.
-/

/-! ## The Python builtin round, over exact rationals -/

/-- The Python builtin round on an exact rational: nearest integer, ties to
the even neighbour (banker's rounding). -/
def pythonRound (q : ℚ) : ℤ :=
  if q - ⌊q⌋ < 1/2 then ⌊q⌋
  else if 1/2 < q - ⌊q⌋ then ⌊q⌋ + 1
  else if ⌊q⌋ % 2 = 0 then ⌊q⌋ else ⌊q⌋ + 1

/-! ## Segment planning (split_and_resize, youtube_downloader_test.py lines 90-100) -/

/-- `MAX_LEN = 60.0`, the segment-length cap of split_and_resize. -/
def MAX_LEN : ℚ := 60

/-- `num_segs = max(1, math.ceil(duration / MAX_LEN))`. -/
def numSegs (d : ℚ) : ℕ := max 1 ⌈d / MAX_LEN⌉.toNat

/-- `seg_len = duration / num_segs if num_segs > 0 else duration`. -/
def segLen (d : ℚ) : ℚ := if 0 < numSegs d then d / numSegs d else d

/-- `start = round(i * seg_len)` for segment index `i`. -/
def segStart (d : ℚ) (i : ℕ) : ℤ := pythonRound (i * segLen d)

/-- `end = round(min((i + 1) * seg_len, duration))` for segment index `i`. -/
def segEnd (d : ℚ) (i : ℕ) : ℤ := pythonRound (min ((i + 1) * segLen d) d)

/-- The list of `(start, end)` second boundaries computed by
split_and_resize, one entry per `i in range(num_segs)`. -/
def segmentPlan (d : ℚ) : List (ℤ × ℤ) :=
  (List.range (numSegs d)).map fun i => (segStart d i, segEnd d i)

/-! ## Probing fallbacks (split_and_resize, lines 72-89)

The two ffprobe invocations are external; their observable outcome is
either a parsed value or a parse failure (`none`), in which case the
Python code falls back to `0.0` and `(1280, 720)` inside bare
`try/except` blocks. -/

/-- `duration = float(...)` with `except: duration = 0.0`. -/
def probedDuration (raw : Option ℚ) : ℚ := raw.getD 0

/-- `in_w, in_h = map(int, ...)` with `except: in_w, in_h = 1280, 720`. -/
def probedDims (raw : Option (ℕ × ℕ)) : ℕ × ℕ := raw.getD (1280, 720)

/-! ## Orientation transform (split_and_resize, lines 101-107) -/

/-- `crop_w = int(in_h * 9/16)`: the float product `in_h * 9 / 16` is exact
and `int` truncates; for a natural `in_h` this is floor, i.e. `ℕ` division. -/
def cropW (h : ℕ) : ℕ := h * 9 / 16

/-- `crop_x = (in_w - crop_w)//2`, Python floor division on (possibly
negative) integers, i.e. `Int.fdiv`. -/
def cropX (w h : ℕ) : ℤ := Int.fdiv ((w : ℤ) - (cropW h : ℤ)) 2

/-- `crop_y = (in_h - crop_h)//2` where `crop_h = in_h`. -/
def cropY (h : ℕ) : ℤ := Int.fdiv ((h : ℤ) - (h : ℤ)) 2

/-- The ffmpeg `-vf` filter string built per segment: a centered 9:16 crop
plus scale for the string "vertical", a transpose plus scale otherwise. -/
def vfFor (orientation : String) (w h : ℕ) : String :=
  if orientation = "vertical" then
    "crop=" ++ toString (cropW h) ++ ":" ++ toString h ++ ":" ++
      toString (cropX w h) ++ ":" ++ toString (cropY h) ++ ",scale=720:1280"
  else
    "transpose=1,scale=1280:720"

/-! ## Per-segment transcode / move loop (split_and_resize, lines 108-121)

The ffmpeg invocation is run with unchecked exit status and discarded
output; its only observable effect is whether the intermediate file
exists.  `shutil.move` then raises if it does not, aborting the loop.
`produced i` tells whether the transcoder wrote segment `i`'s file. -/

/-- Outcome of the segment loop: the indices whose files were moved into
the download directory, in order, and the index at which `shutil.move`
raised (if any); seg_paths itself is discarded when the loop raises. -/
structure SegRun where
  moved : List ℕ
  failedAt : Option ℕ
deriving DecidableEq, Repr

/-- The `for i in range(num_segs)` body: move the intermediate file when it
exists, raise (abort) at the first segment whose file is missing. -/
def segLoop (produced : ℕ → Bool) : ℕ → ℕ → List ℕ → SegRun
  | _, 0, acc => ⟨acc, none⟩
  | i, k + 1, acc =>
    if produced i then segLoop produced (i + 1) k (acc ++ [i]) else ⟨acc, some i⟩

/-- Run the segment loop over all `n` planned segments. -/
def runSegments (n : ℕ) (produced : ℕ → Bool) : SegRun := segLoop produced 0 n []

/-- Everything split_and_resize computes, as observable from outside. -/
structure SplitResult where
  duration : ℚ
  dims : ℕ × ℕ
  plan : List (ℤ × ℤ)
  vf : String
  run : SegRun

/-- split_and_resize: probe (with fallbacks), plan the segments, build the
orientation transform, then transcode and move each segment. -/
def splitAndResize (durationRaw : Option ℚ) (dimsRaw : Option (ℕ × ℕ))
    (orientation : String) (produced : ℕ → Bool) : SplitResult :=
  let duration := probedDuration durationRaw
  let dims := probedDims dimsRaw
  ⟨duration, dims, segmentPlan duration, vfFor orientation dims.1 dims.2,
    runSegments (numSegs duration) produced⟩

/-! ## Quality-tier extraction (get_video_info)

youtube_downloader_test.py line 48 (and youtube_downloader_video.py
line 49) build `sorted({f"{h}p" ...})`: a set of tag strings sorted with
the Python string order, which is lexicographic by code point — exactly
the order of `String` in Lean.  The variant in src/unnamed/part_000
(lines 54-60) instead appends unseen tags in format order. -/

/-- The `f"{height}p"` tag of a frame height. -/
def heightTag (h : ℕ) : String := toString h ++ "p"

/-- Lexicographic order on character lists by code point, a shorter prefix
first — the comparison Python uses on strings. -/
def lexLe : List Char → List Char → Bool
  | [], _ => true
  | _ :: _, [] => false
  | a :: as, b :: bs =>
    if a.toNat < b.toNat then true
    else if b.toNat < a.toNat then false
    else lexLe as bs

/-- The Python string order. -/
def strLe (a b : String) : Bool := lexLe a.toList b.toList

/-- `sorted({f"{fmt.get('height')}p" for fmt in formats if fmt.get('height')})`:
heights are optional, a falsy height (absent or `0`) is skipped, tags are
deduplicated (set) and sorted in the Python string order. -/
def qualities (heights : List (Option ℕ)) : List String :=
  List.insertionSort (fun a b => strLe a b = true)
    (((heights.filterMap id).filter (fun h => h ≠ 0)).map heightTag).dedup

/-- The part_000 variant of the quality list: append each unseen tag in
format order (no sorting). -/
def qualitiesFirstOcc (heights : List (Option ℕ)) : List String :=
  heights.foldl (fun acc o =>
    match o with
    | none => acc
    | some h =>
      if h = 0 then acc
      else if heightTag h ∈ acc then acc else acc ++ [heightTag h]) []

/-! ## URL identifier parsing (parse_video_id, lines 30-37)

The three regular expressions `v=([0-9A-Za-z_-]{11})`,
`youtu\.be/([0-9A-Za-z_-]{11})` and `embed/([0-9A-Za-z_-]{11})` each
consist of a literal prefix followed by exactly eleven characters of a
fixed class; `re.search` returns the leftmost such occurrence. -/

/-- Membership in the character class `[0-9A-Za-z_-]`. -/
def isIDChar (c : Char) : Bool :=
  (48 ≤ c.toNat && c.toNat ≤ 57) || (65 ≤ c.toNat && c.toNat ≤ 90) ||
    (97 ≤ c.toNat && c.toNat ≤ 122) || c == '_' || c == '-'

/-- Try a pattern at the current position: the literal prefix must match
and be followed by eleven characters of the class, which are captured. -/
def tryHere (pat : List Char) (s : List Char) : Option (List Char) :=
  if pat.isPrefixOf s then
    if ((s.drop pat.length).take 11).length == 11 && ((s.drop pat.length).take 11).all isIDChar
    then some ((s.drop pat.length).take 11)
    else none
  else none

/-- `re.search` for a prefix-plus-capture pattern: scan left to right and
return the capture of the leftmost position where the pattern matches. -/
def searchCapture (pat : List Char) : List Char → Option (List Char)
  | [] => none
  | c :: rest =>
    match tryHere pat (c :: rest) with
    | some cap => some cap
    | none => searchCapture pat rest

/-- The fixed ordered pattern list of parse_video_id. -/
def idPatterns : List (List Char) := ["v=".toList, "youtu.be/".toList, "embed/".toList]

/-- `for pat in patterns: ... if m: return m.group(1)` — first match wins. -/
def tryPatterns : List (List Char) → List Char → Option (List Char)
  | [], _ => none
  | p :: ps, s =>
    match searchCapture p s with
    | some cap => some cap
    | none => tryPatterns ps s

/-- parse_video_id: the capture of the first matching pattern, or the
`ValueError` raised when none matches. -/
def parseVideoId (url : String) : Except String String :=
  match tryPatterns idPatterns url.toList with
  | some cap => Except.ok (String.mk cap)
  | none => Except.error ("Invalid YouTube URL: " ++ url)

/-! ## Chunked file streaming (do_GET, /download and /segment routes)

`while chunk := f.read(1024 * 512): self.wfile.write(chunk)` reads a file
of known size in chunks of at most 512 KiB until exhausted.  The chunk
count is bounded by `size / CHUNK + 1`, which serves as structural fuel. -/

/-- The fixed chunk size `1024 * 512` bytes. -/
def CHUNK : ℕ := 1024 * 512

/-- The successive chunk sizes of the read loop, with explicit fuel
bounding the number of iterations. -/
def chunkAux : ℕ → ℕ → List ℕ
  | _, 0 => []
  | 0, _ + 1 => []
  | fuel + 1, n + 1 => min CHUNK (n + 1) :: chunkAux fuel (n + 1 - min CHUNK (n + 1))

/-- The chunk sizes produced when streaming a file of `size` bytes. -/
def chunkSizes (size : ℕ) : List ℕ := chunkAux (size / CHUNK + 1) size

/-- The `Content-Length` header sent before streaming. -/
def contentLengthHeader (size : ℕ) : String × String :=
  ("Content-Length", toString size)

/-- The `Content-Disposition` header sent before streaming. -/
def dispositionHeader (name : String) : String × String :=
  ("Content-Disposition", "attachment; filename=\"" ++ name ++ "\"")

/-! ## The /download route of the single-shot variant (src/unnamed/part_000,
do_GET lines 119-142)

After the write loop the handler runs `os.remove(fp)` and
`os.rmdir(os.path.dirname(fp))`.  A client disconnect makes
`self.wfile.write` raise, which jumps to the `except` block, skipping
both cleanup calls.  `disconnectAt = some k` means the write of chunk
`k` raises; `none` means the client stays connected. -/

/-- Observable outcome of one /download request in the single-shot variant. -/
structure DownloadRun where
  bytesSent : ℕ
  fileRemoved : Bool
  tmpdirRemoved : Bool
deriving DecidableEq, Repr

/-- Stream the file, then clean up — unless a write raised first. -/
def downloadGet (size : ℕ) (disconnectAt : Option ℕ) : DownloadRun :=
  match disconnectAt with
  | some k =>
    if k < (chunkSizes size).length then ⟨((chunkSizes size).take k).sum, false, false⟩
    else ⟨(chunkSizes size).sum, true, true⟩
  | none => ⟨(chunkSizes size).sum, true, true⟩

/-! ## Query-string parameter extraction (/split route, lines 153-157)

`parse_qs` (Python standard library, default `keep_blank_values=False`)
splits the query on `&`, splits each field at the first `=`, and drops
fields with no `=` or with a blank value; values are grouped per key in
order.  Percent decoding is the identity on the percent-free queries
considered here and is not modelled. -/

/-- Split a character list on a separator character. -/
def splitOnChar (c : Char) : List Char → List (List Char)
  | [] => [[]]
  | x :: xs =>
    match splitOnChar c xs with
    | [] => [[]]
    | cur :: rest => if x == c then [] :: cur :: rest else (x :: cur) :: rest

/-- Split a field at its first `=`, if any. -/
def splitFirstEq : List Char → Option (List Char × List Char)
  | [] => none
  | x :: xs =>
    if x == '=' then some ([], xs)
    else
      match splitFirstEq xs with
      | none => none
      | some (n, v) => some (x :: n, v)

/-- `parse_qs` as a key-value list: empty fields, fields without `=` and
fields with a blank value are dropped (`keep_blank_values=False`). -/
def parseQSL (query : String) : List (String × String) :=
  (splitOnChar '&' query.toList).filterMap fun field =>
    if field.isEmpty then none
    else
      match splitFirstEq field with
      | none => none
      | some (n, v) => if v.isEmpty then none else some (String.mk n, String.mk v)

/-- `parse_qs(query).get(key, [])`: all values of a key, in order. -/
def paramValues (query key : String) : List String :=
  (parseQSL query).filterMap fun p => if p.1 = key then some p.2 else none

/-- `params.get(key, [dflt])[0]`. -/
def getParam (query key dflt : String) : String :=
  match paramValues query key with
  | [] => dflt
  | v :: _ => v

/-- `orient = params.get('orientation', ['vertical'])[0]` in the /split
handler. -/
def splitOrientation (query : String) : String :=
  getParam query "orientation" "vertical"

/-! # Theorems -/

/-! ## Properties of pythonRound -/

theorem floor_le_pythonRound (q : ℚ) : ⌊q⌋ ≤ pythonRound q := by
  unfold pythonRound
  split_ifs <;> omega

theorem pythonRound_le_floor_add_one (q : ℚ) : pythonRound q ≤ ⌊q⌋ + 1 := by
  unfold pythonRound
  split_ifs <;> omega

theorem pythonRound_le (q : ℚ) : (pythonRound q : ℚ) ≤ q + 1/2 := by
  have hfl : (⌊q⌋ : ℚ) ≤ q := Int.floor_le q
  unfold pythonRound
  split_ifs with h1 h2 h3 <;> push_cast <;> linarith

theorem le_pythonRound (q : ℚ) : q - 1/2 ≤ (pythonRound q : ℚ) := by
  have hfl : q < ⌊q⌋ + 1 := Int.lt_floor_add_one q
  unfold pythonRound
  split_ifs with h1 h2 h3 <;> push_cast <;> linarith

theorem pythonRound_mono {a b : ℚ} (hab : a ≤ b) : pythonRound a ≤ pythonRound b := by
  rcases lt_or_le ⌊a⌋ ⌊b⌋ with hf | hf
  · have h1 := pythonRound_le_floor_add_one a
    have h2 := floor_le_pythonRound b
    omega
  · have hfe : ⌊a⌋ = ⌊b⌋ := le_antisymm (Int.floor_le_floor hab) hf
    have hfr : a - (⌊b⌋ : ℚ) ≤ b - (⌊b⌋ : ℚ) := by linarith
    unfold pythonRound
    rw [hfe]
    split_ifs <;> first | omega | linarith

theorem pythonRound_zero : pythonRound 0 = 0 := by
  norm_num [pythonRound]

/-! ## Properties of the segment plan -/

theorem one_le_numSegs (d : ℚ) : 1 ≤ numSegs d := le_max_left 1 _

theorem segLen_eq (d : ℚ) : segLen d = d / numSegs d := by
  have h : 0 < numSegs d := by
    have := one_le_numSegs d
    omega
  rw [segLen, if_pos h]

theorem numSegs_cast (d : ℚ) (hd : 0 ≤ d) : (numSegs d : ℤ) = max 1 ⌈d / 60⌉ := by
  have hc : (0 : ℤ) ≤ ⌈d / 60⌉ := Int.ceil_nonneg (by positivity)
  rw [numSegs, MAX_LEN, Nat.cast_max]
  rw [Int.toNat_of_nonneg hc, Nat.cast_one]

theorem numSegs_mul_segLen (d : ℚ) : (numSegs d : ℚ) * segLen d = d := by
  rw [segLen_eq]
  have h : (numSegs d : ℚ) ≠ 0 := by
    have := one_le_numSegs d
    positivity
  field_simp

theorem segLen_nonneg (d : ℚ) (hd : 0 ≤ d) : 0 ≤ segLen d := by
  rw [segLen_eq]
  positivity

theorem le_numSegs_div (d : ℚ) : d / 60 ≤ (numSegs d : ℚ) := by
  calc d / 60 ≤ (⌈d / 60⌉ : ℚ) := Int.le_ceil _
    _ ≤ ((⌈d / 60⌉.toNat : ℤ) : ℚ) := by exact_mod_cast Int.self_le_toNat _
    _ ≤ (numSegs d : ℚ) := by
        rw [numSegs, MAX_LEN]
        exact_mod_cast Nat.cast_le.mpr (le_max_right 1 _)

theorem segLen_le_sixty (d : ℚ) : segLen d ≤ 60 := by
  rw [segLen_eq]
  have hn : (0 : ℚ) < (numSegs d : ℚ) := by
    have := one_le_numSegs d
    positivity
  rw [div_le_iff₀ hn]
  have h := le_numSegs_div d
  rw [div_le_iff₀ (by norm_num : (0:ℚ) < 60)] at h
  linarith

theorem min_collapse (d : ℚ) (hd : 0 ≤ d) {i : ℕ} (hi : i + 1 ≤ numSegs d) :
    min ((i + 1) * segLen d) d = (i + 1) * segLen d := by
  rw [min_eq_left]
  calc ((i : ℚ) + 1) * segLen d ≤ (numSegs d : ℚ) * segLen d := by
        apply mul_le_mul_of_nonneg_right _ (segLen_nonneg d hd)
        exact_mod_cast hi
    _ = d := numSegs_mul_segLen d

theorem segEnd_eq (d : ℚ) (hd : 0 ≤ d) {i : ℕ} (hi : i + 1 ≤ numSegs d) :
    segEnd d i = pythonRound (((i + 1 : ℕ) : ℚ) * segLen d) := by
  rw [segEnd, min_collapse d hd hi]
  push_cast
  ring_nf

theorem sum_map_range_sub (f : ℕ → ℤ) (n : ℕ) :
    ((List.range n).map fun i => f (i + 1) - f i).sum = f n - f 0 := by
  induction n with
  | zero => simp
  | succ n ih =>
    rw [List.range_succ, List.map_append, List.sum_append, ih]
    simp only [List.map_cons, List.map_nil, List.sum_cons, List.sum_nil]
    omega

/-! ## Concrete evaluations of the plan -/

theorem numSegs_125 : numSegs 125 = 3 := by
  have h : ⌈(125 : ℚ) / MAX_LEN⌉ = 3 := by
    rw [Int.ceil_eq_iff]
    constructor <;> norm_num [MAX_LEN]
  simp [numSegs, h]

theorem segLen_125 : segLen 125 = 125 / 3 := by
  rw [segLen_eq, numSegs_125]
  norm_num

theorem segmentPlan_125 : segmentPlan 125 = [(0, 42), (42, 83), (83, 125)] := by
  have h0 : segStart 125 0 = 0 := by norm_num [segStart, segLen_125, pythonRound]
  have h1 : segStart 125 1 = 42 := by norm_num [segStart, segLen_125, pythonRound]
  have h2 : segStart 125 2 = 83 := by norm_num [segStart, segLen_125, pythonRound]
  have e0 : segEnd 125 0 = 42 := by norm_num [segEnd, segLen_125, pythonRound, min_def]
  have e1 : segEnd 125 1 = 83 := by norm_num [segEnd, segLen_125, pythonRound, min_def]
  have e2 : segEnd 125 2 = 125 := by norm_num [segEnd, segLen_125, pythonRound, min_def]
  rw [segmentPlan, numSegs_125]
  simp [List.range_succ, h0, h1, h2, e0, e1, e2]

theorem numSegs_zero : numSegs 0 = 1 := by
  have h : ⌈(0 : ℚ) / MAX_LEN⌉ = 0 := by norm_num [MAX_LEN]
  simp [numSegs, h]

theorem segmentPlan_zero : segmentPlan 0 = [(0, 0)] := by
  have hl : segLen 0 = 0 := by rw [segLen_eq]; norm_num
  have h0 : segStart 0 0 = 0 := by norm_num [segStart, hl, pythonRound_zero]
  have e0 : segEnd 0 0 = 0 := by norm_num [segEnd, hl, pythonRound_zero]
  rw [segmentPlan, numSegs_zero]
  simp [List.range_succ, h0, e0]

/-! ## C1 -/

/-- C1: for every probed duration d at least 0, the plan of split_and_resize
has segmentCount = max(1, ceil(d / 60)), segmentLength = d / segmentCount,
and segment i has start = round(i * segmentLength) and
end = round(min((i + 1) * segmentLength, d)); for d = 125 it produces
exactly the three segments 0-42, 42-83 and 83-125. -/
theorem c1_split_plan (d : ℚ) (hd : 0 ≤ d) :
    (numSegs d : ℤ) = max 1 ⌈d / 60⌉ ∧
    segLen d = d / numSegs d ∧
    (segmentPlan d).length = numSegs d ∧
    (∀ i, i < numSegs d →
      (segmentPlan d)[i]? =
        some (pythonRound (i * segLen d), pythonRound (min ((i + 1) * segLen d) d))) ∧
    segmentPlan 125 = [(0, 42), (42, 83), (83, 125)] := by
  refine ⟨numSegs_cast d hd, segLen_eq d, by simp [segmentPlan], ?_, segmentPlan_125⟩
  intro i hi
  simp [segmentPlan, List.getElem?_map, List.getElem?_range, hi, segStart, segEnd]

/-- Witness for C1 at the concrete duration 125. -/
theorem c1_split_plan_witness :
    (numSegs (125 : ℚ) : ℤ) = max 1 ⌈(125 : ℚ) / 60⌉ ∧
    segmentPlan 125 = [(0, 42), (42, 83), (83, 125)] :=
  ⟨(c1_split_plan 125 (by norm_num)).1, (c1_split_plan 125 (by norm_num)).2.2.2.2⟩

/-! ## C2 -/

/-- C2: for every duration d above 0 the rounded boundaries are contiguous
(each rounded end equals the next rounded start), non-overlapping (start at
most end), each rounded segment length is at most the 60 second cap plus
one second of rounding, the first start is 0, the last end is round(d),
and the summed lengths equal round(d), within 1/2 of d — so the file is
covered exactly once up to rounding. -/
theorem c2_plan_coverage (d : ℚ) (hd : 0 < d) :
    segStart d 0 = 0 ∧
    (∀ i, i + 1 < numSegs d → segEnd d i = segStart d (i + 1)) ∧
    (∀ i, i < numSegs d → segStart d i ≤ segEnd d i ∧ segEnd d i - segStart d i ≤ 61) ∧
    segEnd d (numSegs d - 1) = pythonRound d ∧
    ((segmentPlan d).map fun p => p.2 - p.1).sum = pythonRound d ∧
    |(pythonRound d : ℚ) - d| ≤ 1 / 2 := by
  have hd0 : (0 : ℚ) ≤ d := le_of_lt hd
  have hstart : ∀ i : ℕ, segStart d i = pythonRound (i * segLen d) := fun i => rfl
  have hL0 : 0 ≤ segLen d := segLen_nonneg d hd0
  have hL60 : segLen d ≤ 60 := segLen_le_sixty d
  have hiled : ∀ i : ℕ, i ≤ numSegs d → (i : ℚ) * segLen d ≤ d := by
    intro i hi
    calc (i : ℚ) * segLen d ≤ (numSegs d : ℚ) * segLen d := by
          apply mul_le_mul_of_nonneg_right _ hL0
          exact_mod_cast hi
      _ = d := numSegs_mul_segLen d
  have hcontig : ∀ i, i + 1 ≤ numSegs d →
      segEnd d i = pythonRound (((i + 1 : ℕ) : ℚ) * segLen d) := fun i hi => segEnd_eq d hd0 hi
  refine ⟨?_, ?_, ?_, ?_, ?_, ?_⟩
  · rw [segStart]
    norm_num [pythonRound_zero]
  · intro i hi
    rw [hcontig i (by omega), segStart]
  · intro i hi
    have hi1 : i + 1 ≤ numSegs d := by omega
    constructor
    · rw [segStart, segEnd]
      apply pythonRound_mono
      apply le_min
      · apply mul_le_mul_of_nonneg_right _ hL0
        linarith
      · exact hiled i (by omega)
    · rw [segStart, hcontig i hi1]
      have h1 := pythonRound_le (((i + 1 : ℕ) : ℚ) * segLen d)
      have h2 := le_pythonRound ((i : ℚ) * segLen d)
      have hdiff : ((i + 1 : ℕ) : ℚ) * segLen d - (i : ℚ) * segLen d = segLen d := by
        push_cast
        ring
      have : (pythonRound (((i + 1 : ℕ) : ℚ) * segLen d) : ℚ) -
          (pythonRound ((i : ℚ) * segLen d) : ℚ) ≤ 61 := by linarith
      exact_mod_cast this
  · have hn := one_le_numSegs d
    have h := hcontig (numSegs d - 1) (by omega)
    rw [h]
    congr 1
    have : numSegs d - 1 + 1 = numSegs d := by omega
    rw [this, numSegs_mul_segLen]
  · rw [segmentPlan, List.map_map]
    have hmap : ∀ i ∈ List.range (numSegs d),
        ((fun p : ℤ × ℤ => p.2 - p.1) ∘ fun i => (segStart d i, segEnd d i)) i =
          (fun i => pythonRound (((i + 1 : ℕ) : ℚ) * segLen d) -
            pythonRound ((i : ℚ) * segLen d)) i := by
      intro i hi
      rw [List.mem_range] at hi
      simp only [Function.comp_apply]
      rw [hcontig i (by omega), segStart]
    rw [List.map_congr_left hmap]
    have htel := sum_map_range_sub (fun j => pythonRound ((j : ℚ) * segLen d)) (numSegs d)
    simp only at htel
    rw [htel, numSegs_mul_segLen]
    norm_num [pythonRound_zero]
  · rw [abs_le]
    constructor
    · have := le_pythonRound d
      linarith
    · have := pythonRound_le d
      linarith

/-- Witness for C2 at the concrete duration 125. -/
theorem c2_plan_coverage_witness :
    ((segmentPlan 125).map fun p => p.2 - p.1).sum = pythonRound 125 ∧
    |(pythonRound (125 : ℚ) : ℚ) - 125| ≤ 1 / 2 :=
  ⟨(c2_plan_coverage 125 (by norm_num)).2.2.2.2.1,
    (c2_plan_coverage 125 (by norm_num)).2.2.2.2.2⟩

/-! ## C3 -/

theorem lexLe_total : ∀ xs ys : List Char, lexLe xs ys = true ∨ lexLe ys xs = true := by
  intro xs
  induction xs with
  | nil => intro ys; left; rfl
  | cons a as ih =>
    intro ys
    cases ys with
    | nil => right; rfl
    | cons b bs =>
      by_cases h1 : a.toNat < b.toNat
      · left; simp [lexLe, h1]
      · by_cases h2 : b.toNat < a.toNat
        · right; simp [lexLe, h2]
        · rcases ih bs with h | h
          · left; simp [lexLe, h1, h2, h]
          · right; simp [lexLe, h1, h2, h]

theorem lexLe_trans :
    ∀ xs ys zs : List Char, lexLe xs ys = true → lexLe ys zs = true → lexLe xs zs = true := by
  intro xs
  induction xs with
  | nil => intro ys zs _ _; rfl
  | cons a as ih =>
    intro ys zs h1 h2
    cases ys with
    | nil => simp [lexLe] at h1
    | cons b bs =>
      cases zs with
      | nil => simp [lexLe] at h2
      | cons c cs =>
        simp only [lexLe] at h1 h2 ⊢
        split_ifs at h1 h2 ⊢ <;>
          first
          | rfl
          | omega
          | (exact ih bs cs h1 h2)

instance : IsTotal String fun a b => strLe a b = true :=
  ⟨fun a b => lexLe_total a.toList b.toList⟩

instance : IsTrans String fun a b => strLe a b = true :=
  ⟨fun a b c => lexLe_trans a.toList b.toList c.toList⟩

theorem qualities_example_eval :
    qualities [some 720, some 480, some 720, some 1080] = ["1080p", "480p", "720p"] := by
  decide

/-- C3 counterexample: for format heights 720, 480, 720, 1080 the code
produces the lexicographically sorted list, not the claimed numerically
ascending one. -/
theorem c3_qualities_counterexample :
    qualities [some 720, some 480, some 720, some 1080] = ["1080p", "480p", "720p"] ∧
    qualities [some 720, some 480, some 720, some 1080] ≠ ["480p", "720p", "1080p"] := by
  refine ⟨qualities_example_eval, ?_⟩
  rw [qualities_example_eval]
  decide

/-- C3 amended: the quality list has one tag per distinct truthy height,
without duplicates, sorted in the Python string order (lexicographic by
code point), which for the example heights 720, 480, 720, 1080 yields
1080p, 480p, 720p; the part_000 variant instead keeps first-occurrence
order, yielding 720p, 480p, 1080p. -/
theorem c3_qualities_lex (hs : List (Option ℕ)) :
    (qualities hs).Sorted (fun a b => strLe a b = true) ∧
    (qualities hs).Nodup ∧
    (∀ t, t ∈ qualities hs ↔ ∃ h, some h ∈ hs ∧ h ≠ 0 ∧ t = heightTag h) ∧
    qualities [some 720, some 480, some 720, some 1080] = ["1080p", "480p", "720p"] ∧
    qualitiesFirstOcc [some 720, some 480, some 720, some 1080] = ["720p", "480p", "1080p"] := by
  refine ⟨List.sorted_insertionSort _ _, ?_, ?_, qualities_example_eval, by decide⟩
  · exact (List.perm_insertionSort _ _).nodup_iff.mpr (List.nodup_dedup _)
  · intro t
    simp only [qualities, List.mem_insertionSort, List.mem_dedup, List.mem_map,
      List.mem_filter, List.mem_filterMap, id_eq, decide_eq_true_eq]
    constructor
    · rintro ⟨h, ⟨⟨o, ho, rfl⟩, hne⟩, rfl⟩
      exact ⟨h, ho, hne, rfl⟩
    · rintro ⟨h, ho, hne, rfl⟩
      exact ⟨h, ⟨⟨some h, ho, rfl⟩, hne⟩, rfl⟩

/-- Witness for C3 amended at the example format list. -/
theorem c3_qualities_lex_witness :
    qualities [some 720, some 480, some 720, some 1080] = ["1080p", "480p", "720p"] ∧
    (qualities [some 720, some 480, some 720, some 1080]).Nodup :=
  ⟨(c3_qualities_lex [some 720, some 480, some 720, some 1080]).2.2.2.1,
    (c3_qualities_lex [some 720, some 480, some 720, some 1080]).2.1⟩

/-! ## C4 -/

theorem cropW_eq_floor (h : ℕ) : (cropW h : ℤ) = ⌊((h : ℚ) * 9 / 16)⌋ := by
  symm
  rw [Int.floor_eq_iff]
  have hb : 16 * (h * 9 / 16) ≤ h * 9 ∧ h * 9 < 16 * (h * 9 / 16) + 16 := by omega
  obtain ⟨hb1, hb2⟩ := hb
  have hb1q : (16 : ℚ) * (cropW h : ℚ) ≤ (h : ℚ) * 9 := by
    rw [cropW]
    exact_mod_cast hb1
  have hb2q : (h : ℚ) * 9 < 16 * (cropW h : ℚ) + 16 := by
    rw [cropW]
    exact_mod_cast hb2
  constructor
  · rw [le_div_iff₀ (by norm_num : (0:ℚ) < 16)]
    push_cast
    linarith
  · rw [div_lt_iff₀ (by norm_num : (0:ℚ) < 16)]
    push_cast
    linarith

theorem cropX_eq_floor (w h : ℕ) : cropX w h = ⌊(((w : ℚ) - (cropW h : ℚ)) / 2)⌋ := by
  rw [cropX, Int.fdiv_eq_ediv _ (by norm_num)]
  have hcast : ((((w : ℤ) - (cropW h : ℤ)) : ℤ) : ℚ) / ((2 : ℕ) : ℚ) =
      ((w : ℚ) - (cropW h : ℚ)) / 2 := by
    push_cast
    ring
  rw [← hcast, Rat.floor_intCast_div_natCast]
  norm_num

theorem cropY_eq_zero (h : ℕ) : cropY h = 0 := by
  simp [cropY]

/-- C4: for all probed source dimensions, the vertical transform is a
center crop to width floor(h * 9/16), full height, x offset
(w - cropWidth) / 2 rounded down and y offset 0, scaled to 720x1280; any
other orientation yields the transpose plus scale to 1280x720, which does
not depend on the dimensions. -/
theorem c4_transform (w h : ℕ) (o : String) :
    (cropW h : ℤ) = ⌊((h : ℚ) * 9 / 16)⌋ ∧
    cropX w h = ⌊(((w : ℚ) - (cropW h : ℚ)) / 2)⌋ ∧
    cropY h = 0 ∧
    vfFor "vertical" w h =
      "crop=" ++ toString (cropW h) ++ ":" ++ toString h ++ ":" ++
        toString (cropX w h) ++ ":" ++ toString (cropY h) ++ ",scale=720:1280" ∧
    (o ≠ "vertical" → vfFor o w h = "transpose=1,scale=1280:720") ∧
    (∀ w2 h2, vfFor "horizontal" w h = vfFor "horizontal" w2 h2) ∧
    vfFor "horizontal" w h = "transpose=1,scale=1280:720" := by
  refine ⟨cropW_eq_floor h, cropX_eq_floor w h, cropY_eq_zero h, ?_, ?_, ?_, rfl⟩
  · rw [vfFor, if_pos rfl]
  · intro ho
    rw [vfFor, if_neg ho]
  · intro w2 h2
    rfl

/-- Witness for C4 at dimensions 1920 x 1080 and a misspelled orientation. -/
theorem c4_transform_witness :
    (cropW 1080 : ℤ) = ⌊((1080 : ℚ) * 9 / 16)⌋ ∧
    vfFor "Vertical" 1920 1080 = "transpose=1,scale=1280:720" :=
  ⟨(c4_transform 1920 1080 "Vertical").1,
    (c4_transform 1920 1080 "Vertical").2.2.2.2.1 (by decide)⟩

/-! ## C5 -/

theorem segLoop_abort (produced : ℕ → Bool) :
    ∀ j k i acc, j < k → produced (i + j) = false → (∀ t, t < j → produced (i + t) = true) →
      segLoop produced i k acc = ⟨acc ++ List.range' i j, some (i + j)⟩ := by
  intro j
  induction j with
  | zero =>
    intro k i acc hk hf _
    cases k with
    | zero => omega
    | succ k =>
      rw [Nat.add_zero] at hf
      simp [segLoop, hf]
  | succ j ih =>
    intro k i acc hk hf hbef
    cases k with
    | zero => omega
    | succ k =>
      have h0 : produced i = true := by
        have := hbef 0 (by omega)
        simpa using this
      rw [segLoop]
      rw [if_pos h0]
      have hf2 : produced (i + 1 + j) = false := by
        have heq : i + 1 + j = i + (j + 1) := by omega
        rw [heq]
        exact hf
      have hbef2 : ∀ t, t < j → produced (i + 1 + t) = true := by
        intro t ht
        have heq : i + 1 + t = i + (t + 1) := by omega
        rw [heq]
        exact hbef (t + 1) (by omega)
      rw [ih k (i + 1) (acc ++ [i]) (by omega) hf2 hbef2]
      rw [List.range'_succ]
      simp [SegRun.mk.injEq]
      omega

theorem segLoop_success (produced : ℕ → Bool) :
    ∀ k i acc, (∀ t, t < k → produced (i + t) = true) →
      segLoop produced i k acc = ⟨acc ++ List.range' i k, none⟩ := by
  intro k
  induction k with
  | zero => intro i acc _; simp [segLoop]
  | succ k ih =>
    intro i acc hall
    have h0 : produced i = true := by
      have := hall 0 (by omega)
      simpa using this
    rw [segLoop, if_pos h0]
    have hall2 : ∀ t, t < k → produced (i + 1 + t) = true := by
      intro t ht
      have heq : i + 1 + t = i + (t + 1) := by omega
      rw [heq]
      exact hall (t + 1) (by omega)
    rw [ih (i + 1) (acc ++ [i]) hall2, List.range'_succ]
    simp

/-- C5 counterexample: two planned segments, the transcoder produces no
output file for segment 0 but would for segment 1; the loop raises at the
move of segment 0 instead of continuing, so the claimed continuation
outcome (segment 1 moved, no abort) does not occur. -/
theorem c5_counterexample :
    runSegments 2 (fun i => i == 1) = ⟨[], some 0⟩ ∧
    runSegments 2 (fun i => i == 1) ≠ ⟨[1], none⟩ ∧
    (runSegments 2 (fun i => i == 1)).failedAt ≠ none := by
  refine ⟨by decide, by decide, by decide⟩

/-- C5 amended: when the transcoder produces no output file for segment j
(and did for every earlier segment), split_and_resize raises at the
shutil.move of segment j: segments before j have been moved, no later
segment is attempted, the function aborts instead of continuing, and no
retry happens.  When every segment file is produced, all n segments are
moved and nothing is raised. -/
theorem c5_abort_on_missing (n : ℕ) (produced : ℕ → Bool) (j : ℕ)
    (hj : j < n) (hfail : produced j = false) (hbefore : ∀ t, t < j → produced t = true) :
    runSegments n produced = ⟨List.range j, some j⟩ ∧
    (∀ produced2 : ℕ → Bool, (∀ t, t < n → produced2 t = true) →
      runSegments n produced2 = ⟨List.range n, none⟩) := by
  constructor
  · have h := segLoop_abort produced j n 0 [] hj (by simpa using hfail)
      (by intro t ht; simpa using hbefore t ht)
    rw [runSegments, h, List.range_eq_range']
    simp
  · intro produced2 hall
    have h := segLoop_success produced2 n 0 [] (by intro t ht; simpa using hall t ht)
    rw [runSegments, h, List.range_eq_range']
    simp

/-- Witness for C5 amended: three segments, the file of segment 1 missing. -/
theorem c5_abort_on_missing_witness :
    runSegments 3 (fun i => decide (i < 1)) = ⟨List.range 1, some 1⟩ :=
  (c5_abort_on_missing 3 (fun i => decide (i < 1)) 1 (by norm_num) (by decide)
    (by decide)).1

/-! ## C6 and C9: chunked streaming -/

theorem chunkAux_sum : ∀ fuel n, n ≤ fuel * CHUNK → (chunkAux fuel n).sum = n := by
  intro fuel
  induction fuel with
  | zero =>
    intro n h
    simp only [CHUNK] at h
    have : n = 0 := by omega
    subst this
    rfl
  | succ fuel ih =>
    intro n h
    cases n with
    | zero => rfl
    | succ n =>
      rw [chunkAux, List.sum_cons, ih]
      · have hm : min CHUNK (n + 1) ≤ n + 1 := min_le_right _ _
        omega
      · simp only [CHUNK] at h ⊢
        omega

theorem chunkSizes_sum (size : ℕ) : (chunkSizes size).sum = size := by
  apply chunkAux_sum
  simp only [CHUNK]
  omega

theorem chunkAux_mem : ∀ fuel n c, c ∈ chunkAux fuel n → 0 < c ∧ c ≤ CHUNK := by
  intro fuel
  induction fuel with
  | zero =>
    intro n c hc
    cases n <;> simp [chunkAux] at hc
  | succ fuel ih =>
    intro n c hc
    cases n with
    | zero => simp [chunkAux] at hc
    | succ n =>
      rw [chunkAux, List.mem_cons] at hc
      rcases hc with rfl | hc
      · constructor
        · simp only [CHUNK]
          omega
        · exact min_le_left _ _
      · exact ih _ c hc

/-- C6 counterexample: a 600000 byte file is streamed as two chunks; the
client disconnects at the first write, the handler jumps to its except
block, and neither the file nor its temp directory is removed. -/
theorem c6_counterexample :
    0 < (chunkSizes 600000).length ∧
    (downloadGet 600000 (some 0)).fileRemoved = false ∧
    (downloadGet 600000 (some 0)).tmpdirRemoved = false ∧
    (downloadGet 600000 (some 0)).bytesSent = 0 := by
  refine ⟨by decide, by decide, by decide, by decide⟩

/-- C6 amended: in the single-shot variant the source file and its temp
directory are removed exactly when the stream runs to completion (and then
the bytes sent equal the file size); if the client disconnects at any
chunk, the raised write error skips the cleanup, the file and directory
survive, and only the chunks before the failing write were sent. -/
theorem c6_cleanup_only_on_success (size k : ℕ) (hk : k < (chunkSizes size).length) :
    (downloadGet size none).fileRemoved = true ∧
    (downloadGet size none).tmpdirRemoved = true ∧
    (downloadGet size none).bytesSent = size ∧
    (downloadGet size (some k)).fileRemoved = false ∧
    (downloadGet size (some k)).tmpdirRemoved = false ∧
    (downloadGet size (some k)).bytesSent = ((chunkSizes size).take k).sum := by
  simp [downloadGet, hk, chunkSizes_sum]

/-- Witness for C6 amended at a 600000 byte file and a disconnect at the
first chunk. -/
theorem c6_cleanup_only_on_success_witness :
    (downloadGet 600000 none).fileRemoved = true ∧
    (downloadGet 600000 none).bytesSent = 600000 ∧
    (downloadGet 600000 (some 0)).fileRemoved = false :=
  ⟨(c6_cleanup_only_on_success 600000 0 (by decide)).1,
    (c6_cleanup_only_on_success 600000 0 (by decide)).2.2.1,
    (c6_cleanup_only_on_success 600000 0 (by decide)).2.2.2.1⟩

/-- C9: streaming a file of size N sends a Content-Length header equal to
N and a Content-Disposition attachment header carrying the base name; the
512 KiB chunk loop produces only chunks of size between 1 and 524288 whose
total is exactly N, so a connected client receives exactly N bytes. -/
theorem c9_stream_exact (size : ℕ) (name : String) :
    contentLengthHeader size = ("Content-Length", toString size) ∧
    dispositionHeader name =
      ("Content-Disposition", "attachment; filename=\"" ++ name ++ "\"") ∧
    (chunkSizes size).sum = size ∧
    (∀ c ∈ chunkSizes size, 0 < c ∧ c ≤ 1024 * 512) ∧
    (downloadGet size none).bytesSent = size := by
  refine ⟨rfl, rfl, chunkSizes_sum size, ?_, ?_⟩
  · intro c hc
    have := chunkAux_mem _ _ c hc
    simpa [CHUNK] using this
  · simp [downloadGet, chunkSizes_sum]

/-- Witness for C9 at a 600000 byte file. -/
theorem c9_stream_exact_witness :
    (chunkSizes 600000).sum = 600000 ∧ (downloadGet 600000 none).bytesSent = 600000 :=
  ⟨(c9_stream_exact 600000 "video.mp4").2.2.1,
    (c9_stream_exact 600000 "video.mp4").2.2.2.2⟩

/-! ## C7 -/

theorem searchCapture_valid (pat : List Char) :
    ∀ s c, searchCapture pat s = some c → c.length = 11 ∧ c.all isIDChar = true := by
  intro s
  induction s with
  | nil => intro c h; simp [searchCapture] at h
  | cons x rest ih =>
    intro c h
    rw [searchCapture] at h
    rcases hh : tryHere pat (x :: rest) with _ | cap
    · rw [hh] at h
      exact ih c h
    · rw [hh] at h
      cases h
      rw [tryHere] at hh
      split_ifs at hh with h1 h2
      · rw [Bool.and_eq_true, beq_iff_eq] at h2
        cases hh
        exact h2

/-- C7: parse_video_id tries the query-parameter, short-link and embed
patterns in that order and returns the capture of the first one that
matches eleven characters of the class [0-9A-Za-z_-]; the three example
URLs all yield dQw4w9WgXcQ, and any string matching no pattern yields the
ValueError (with no side effects, the function being pure). -/
theorem c7_parse_video_id :
    parseVideoId "https://www.youtube.com/watch?v=dQw4w9WgXcQ" = Except.ok "dQw4w9WgXcQ" ∧
    parseVideoId "https://youtu.be/dQw4w9WgXcQ" = Except.ok "dQw4w9WgXcQ" ∧
    parseVideoId "https://www.youtube.com/embed/dQw4w9WgXcQ" = Except.ok "dQw4w9WgXcQ" ∧
    parseVideoId "not a url" = Except.error "Invalid YouTube URL: not a url" ∧
    (∀ s c, searchCapture "v=".toList s.toList = some c →
      parseVideoId s = Except.ok (String.mk c)) ∧
    (∀ s c, searchCapture "v=".toList s.toList = none →
      searchCapture "youtu.be/".toList s.toList = some c →
      parseVideoId s = Except.ok (String.mk c)) ∧
    (∀ s c, searchCapture "v=".toList s.toList = none →
      searchCapture "youtu.be/".toList s.toList = none →
      searchCapture "embed/".toList s.toList = some c →
      parseVideoId s = Except.ok (String.mk c)) ∧
    (∀ s, searchCapture "v=".toList s.toList = none →
      searchCapture "youtu.be/".toList s.toList = none →
      searchCapture "embed/".toList s.toList = none →
      parseVideoId s = Except.error ("Invalid YouTube URL: " ++ s)) ∧
    (∀ pat s c, searchCapture pat s = some c → c.length = 11 ∧ c.all isIDChar = true) := by
  refine ⟨rfl, rfl, rfl, rfl, ?_, ?_, ?_, ?_, fun pat s c => searchCapture_valid pat s c⟩
  · intro s c h1
    simp only [parseVideoId, idPatterns, tryPatterns, h1]
  · intro s c h1 h2
    simp only [parseVideoId, idPatterns, tryPatterns, h1, h2]
  · intro s c h1 h2 h3
    simp only [parseVideoId, idPatterns, tryPatterns, h1, h2, h3]
  · intro s h1 h2 h3
    simp only [parseVideoId, idPatterns, tryPatterns, h1, h2, h3]

/-- Witness for C7 applying the first-pattern rule at a concrete string. -/
theorem c7_parse_video_id_witness :
    parseVideoId "x v=00000000000 y" = Except.ok "00000000000" :=
  c7_parse_video_id.2.2.2.2.1 "x v=00000000000 y" "00000000000".toList rfl

/-! ## C8 -/

/-- C8: when either probe output is unparseable, split_and_resize does not
raise: the duration falls back to 0, the dimensions fall back to
1280 x 720, and the segmenter proceeds, producing the single trivial
segment (0, 0) and the transform for the fallback dimensions. -/
theorem c8_probe_fallback :
    probedDuration none = 0 ∧
    probedDims none = (1280, 720) ∧
    numSegs (probedDuration none) = 1 ∧
    segmentPlan (probedDuration none) = [(0, 0)] ∧
    splitAndResize none none "vertical" (fun _ => true) =
      ⟨0, (1280, 720), [(0, 0)], vfFor "vertical" 1280 720, ⟨[0], none⟩⟩ := by
  refine ⟨rfl, rfl, by rw [probedDuration]; exact numSegs_zero, ?_, ?_⟩
  · rw [probedDuration]
    simpa using segmentPlan_zero
  · rw [splitAndResize]
    simp only [probedDuration, probedDims, Option.getD_none, SplitResult.mk.injEq,
      true_and, and_true]
    refine ⟨segmentPlan_zero, ?_⟩
    rw [numSegs_zero]
    decide

/-! ## C10 -/

theorem crop_ne_transpose (w h : ℕ) :
    "crop=" ++ toString (cropW h) ++ ":" ++ toString h ++ ":" ++
        toString (cropX w h) ++ ":" ++ toString (cropY h) ++ ",scale=720:1280" ≠
      "transpose=1,scale=1280:720" := by
  intro heq
  have hd := congrArg String.data heq
  simp only [String.data_append] at hd
  exact absurd (List.head_eq_of_cons_eq hd) (by decide)

/-- C10 counterexample: in the query
url=abc&resolution=720p&orientation= the orientation parameter is present
(the field orientation= appears in the query string) but carries a blank
value, parse_qs drops it, and the handler still substitutes the vertical
default — so the substitution does not happen only when the parameter is
entirely absent. -/
theorem c10_counterexample :
    "orientation=".toList ∈ splitOnChar '&' "url=abc&resolution=720p&orientation=".toList ∧
    paramValues "url=abc&resolution=720p&orientation=" "orientation" = [] ∧
    splitOrientation "url=abc&resolution=720p&orientation=" = "vertical" := by
  refine ⟨by decide, by decide, by decide⟩

/-- C10 amended: split_and_resize builds the vertical crop exactly when the
orientation string equals "vertical" and the transpose transform for every
other string; the /split handler substitutes "vertical" whenever parse_qs
yields no value for the orientation key — which happens both when the
parameter is absent from the query string and when it is present with a
blank value, since parse_qs drops blank values — and otherwise uses the
first supplied value. -/
theorem c10_orientation_selection (o : String) (w h : ℕ) (q : String) :
    (vfFor o w h =
        "crop=" ++ toString (cropW h) ++ ":" ++ toString h ++ ":" ++
          toString (cropX w h) ++ ":" ++ toString (cropY h) ++ ",scale=720:1280" ↔
      o = "vertical") ∧
    (o ≠ "vertical" → vfFor o w h = "transpose=1,scale=1280:720") ∧
    (paramValues q "orientation" = [] → splitOrientation q = "vertical") ∧
    (∀ v rest, paramValues q "orientation" = v :: rest → splitOrientation q = v) ∧
    splitOrientation "url=abc&resolution=720p&orientation=" = "vertical" := by
  refine ⟨?_, ?_, ?_, ?_, by decide⟩
  · constructor
    · intro hv
      by_contra ho
      rw [vfFor, if_neg ho] at hv
      exact crop_ne_transpose w h hv.symm
    · intro ho
      rw [vfFor, if_pos ho]
  · intro ho
    rw [vfFor, if_neg ho]
  · intro hempty
    rw [splitOrientation, getParam, hempty]
  · intro v rest hcons
    rw [splitOrientation, getParam, hcons]

/-- Witness for C10 amended: a query without an orientation key falls back
to vertical, and a misspelled orientation yields the transpose transform. -/
theorem c10_orientation_selection_witness :
    splitOrientation "url=abc" = "vertical" ∧
    vfFor "vertcal" 1920 1080 = "transpose=1,scale=1280:720" :=
  ⟨(c10_orientation_selection "vertcal" 1920 1080 "url=abc").2.2.1 (by decide),
    (c10_orientation_selection "vertcal" 1920 1080 "url=abc").2.1 (by decide)⟩
